import Mathlib

/-!
Shallow embedding of the RCCA-Helper investigation engine.

The definitions below are transliterated from the TypeScript source:
  - `src/types.ts`            (data model)
  - `src/constants.ts`        (`createInitialTree`)
  - `src/App.tsx`             (tree operations and collection mutators)
  - `src/components/InspectorPanel.tsx` (`handleStatusChange`, note editing,
                                         `RESOLUTION_STATUSES`)
  - `src/persistence.ts`      (migration and import validation)
  - treeUtils (`flattenTree`, `countNodesByStatus`, `countActionsByStatus`)

Browser-only aspects (localStorage, FileReader, alert/confirm dialogs, React
state) are made explicit: nondeterministic inputs such as `crypto.randomUUID()`
and `new Date()` become parameters, a user confirmation becomes a `Bool`
argument, an `alert` becomes a returned message, and "persist immediately"
becomes a returned flag.
-/

/-- `NodeStatus` from src/types.ts. -/
inductive NodeStatus : Type where
  | PENDING
  | ACTIVE
  | RULED_OUT
  | CONFIRMED
deriving DecidableEq, Repr

/-- `NodeType` from src/types.ts. -/
inductive NodeType : Type where
  | ISSUE
  | CATEGORY
  | CAUSE
deriving DecidableEq, Repr

/-- `CauseNode` from src/types.ts.  The optional TypeScript fields
`isRootCause?: boolean` and `children?: CauseNode[]` become `Option` fields
(`none` models an absent/`undefined` field). -/
inductive CauseNode : Type where
  | mk (id : String) (parentId : Option String)
       (label description rationale : String)
       (status : NodeStatus) (ntype : NodeType)
       (isRootCause : Option Bool)
       (children : Option (List CauseNode))

def CauseNode.id : CauseNode → String
  | .mk i _ _ _ _ _ _ _ _ => i

def CauseNode.parentId : CauseNode → Option String
  | .mk _ p _ _ _ _ _ _ _ => p

def CauseNode.label : CauseNode → String
  | .mk _ _ l _ _ _ _ _ _ => l

def CauseNode.description : CauseNode → String
  | .mk _ _ _ d _ _ _ _ _ => d

def CauseNode.rationale : CauseNode → String
  | .mk _ _ _ _ r _ _ _ _ => r

def CauseNode.status : CauseNode → NodeStatus
  | .mk _ _ _ _ _ s _ _ _ => s

def CauseNode.ntype : CauseNode → NodeType
  | .mk _ _ _ _ _ _ t _ _ => t

def CauseNode.isRootCause : CauseNode → Option Bool
  | .mk _ _ _ _ _ _ _ rc _ => rc

def CauseNode.children : CauseNode → Option (List CauseNode)
  | .mk _ _ _ _ _ _ _ _ cs => cs

/-- Replace the `status` field, as the object spread
`{ ...node, status: newStatus }` does. -/
def CauseNode.withStatus : CauseNode → NodeStatus → CauseNode
  | .mk i p l d r _ t rc cs, s => .mk i p l d r s t rc cs

/-- Replace the `isRootCause` field (`updatedNode.isRootCause = false`). -/
def CauseNode.withIsRootCause : CauseNode → Option Bool → CauseNode
  | .mk i p l d r s t _ cs, rc => .mk i p l d r s t rc cs

/-- Replace the `children` field, as `{ ...node, children: ... }` does. -/
def CauseNode.withChildren : CauseNode → Option (List CauseNode) → CauseNode
  | .mk i p l d r s t rc _, cs => .mk i p l d r s t rc cs

/-- The non-`children` fields of a node, used to state that an operation
leaves a node untouched apart from its subtree. -/
def CauseNode.fields (c : CauseNode) :
    String × Option String × String × String × String ×
    NodeStatus × NodeType × Option Bool :=
  (c.id, c.parentId, c.label, c.description, c.rationale,
   c.status, c.ntype, c.isRootCause)

/-- `ActionUpdate` from src/types.ts. -/
structure ActionUpdate : Type where
  id : String
  content : String
  createdAt : String
deriving DecidableEq, Repr

/-- The status union of `ActionItem` from src/types.ts:
`'Open' | 'In Progress' | 'Complete' | 'Blocked' | 'Closed'`. -/
inductive ActionStatus : Type where
  | Open
  | InProgress
  | Complete
  | Blocked
  | Closed
deriving DecidableEq, Repr

/-- `ActionItem` from src/types.ts. -/
structure ActionItem : Type where
  id : String
  causeId : String
  action : String
  rationale : String
  assignee : String
  assignedDate : String
  dueDate : String
  status : ActionStatus
  updates : Option (List ActionUpdate)
deriving DecidableEq, Repr

/-- `Note` from src/types.ts. -/
structure Note : Type where
  id : String
  referenceId : String
  content : String
  owner : String
  createdAt : String
  isEvidence : Bool
deriving DecidableEq, Repr

/-- The six members of the `ResolutionStatus` union declared in
src/types.ts lines 53-59, as the strings they denote. -/
def resolutionStatusDeclaredValues : List String :=
  ["Open", "In Progress", "On Hold", "Implemented", "Verified", "Closed"]

/-- `RESOLUTION_STATUSES` from src/components/InspectorPanel.tsx lines 51-53
(the same list appears in src/components/ResolutionsSummary.tsx line 20):
the status choices the UI offers for a resolution. -/
def RESOLUTION_STATUSES : List String :=
  ["Draft", "Approved", "In Progress", "Implemented", "Verified", "Closed"]

/-- The status literal assigned to a freshly created resolution
(`status: 'Draft'` in InspectorPanel.tsx line 678 and
ResolutionsSummary.tsx line 86). -/
def defaultNewResolutionStatus : String := "Draft"

/-- `ResolutionItem` from src/types.ts.  The `status` field is kept at the
string level because the program stores literals (for example `'Draft'`)
that the declared `ResolutionStatus` union does not contain. -/
structure ResolutionItem : Type where
  id : String
  linkedCauseIds : List String
  title : String
  description : String
  owner : String
  targetDate : String
  implementedDate : String
  verificationMethod : String
  verificationResults : String
  verifiedDate : String
  status : String
  createdAt : String
  updatedAt : String
  updates : Option (List ActionUpdate)
deriving DecidableEq, Repr

/-- `createInitialTree` from src/constants.ts; `crypto.randomUUID()` is the
`freshId` parameter. -/
def createInitialTree (freshId : String) (label : String) : CauseNode :=
  .mk freshId none label "Describe the primary failure mode here." ""
      .PENDING .ISSUE none (some [])

/-! ### treeUtils: flatten and aggregation -/

mutual
/-- `flattenTree` from treeUtils: the node followed by the pre-order
flattening of its children (`if (node.children)` is true for any present
array, including the empty one). -/
def flattenTree : CauseNode → List CauseNode
  | .mk i p l d r s t rc cs =>
    .mk i p l d r s t rc cs ::
      (match cs with
       | some cs' => flattenList cs'
       | none => [])

def flattenList : List CauseNode → List CauseNode
  | [] => []
  | c :: cs => flattenTree c ++ flattenList cs
end

/-- The result record of `countNodesByStatus`: one count per `NodeStatus`;
a record with all four keys present. -/
structure NodeStatusCounts : Type where
  PENDING : Nat
  ACTIVE : Nat
  RULED_OUT : Nat
  CONFIRMED : Nat
deriving DecidableEq, Repr

/-- The `counts[node.status]++` step of `countNodesByStatus`. -/
def bumpNodeCount (counts : NodeStatusCounts) : NodeStatus → NodeStatusCounts
  | .PENDING => { counts with PENDING := counts.PENDING + 1 }
  | .ACTIVE => { counts with ACTIVE := counts.ACTIVE + 1 }
  | .RULED_OUT => { counts with RULED_OUT := counts.RULED_OUT + 1 }
  | .CONFIRMED => { counts with CONFIRMED := counts.CONFIRMED + 1 }

/-- `countNodesByStatus` from treeUtils: all four keys initialised to zero,
then one increment per node. -/
def countNodesByStatus (nodes : List CauseNode) : NodeStatusCounts :=
  nodes.foldl (fun counts node => bumpNodeCount counts node.status)
    ⟨0, 0, 0, 0⟩

/-- The result record of `countActionsByStatus`: the five declared action
status keys, all present. -/
structure ActionStatusCounts : Type where
  openCount : Nat
  inProgressCount : Nat
  completeCount : Nat
  blockedCount : Nat
  closedCount : Nat
deriving DecidableEq, Repr

/-- The `counts[action.status]++` step of `countActionsByStatus`. -/
def bumpActionCount (counts : ActionStatusCounts) : ActionStatus → ActionStatusCounts
  | .Open => { counts with openCount := counts.openCount + 1 }
  | .InProgress => { counts with inProgressCount := counts.inProgressCount + 1 }
  | .Complete => { counts with completeCount := counts.completeCount + 1 }
  | .Blocked => { counts with blockedCount := counts.blockedCount + 1 }
  | .Closed => { counts with closedCount := counts.closedCount + 1 }

/-- `countActionsByStatus` from treeUtils: the five keys zero-filled, then
one increment per action. -/
def countActionsByStatus (actions : List ActionItem) : ActionStatusCounts :=
  actions.foldl (fun counts action => bumpActionCount counts action.status)
    ⟨0, 0, 0, 0, 0⟩

/-! ### Investigations and application state (src/types.ts, src/persistence.ts) -/

/-- `SavedTree` from src/types.ts.  `resolutions` is optional at the storage
level (older documents may lack it), which is why `migrateTree` backfills it. -/
structure SavedTree : Type where
  id : String
  name : String
  createdAt : String
  updatedAt : String
  treeData : CauseNode
  actions : List ActionItem
  notes : List Note
  resolutions : Option (List ResolutionItem)
  isResolved : Option Bool

/-- `Project`, shaped after the object literals built in src/persistence.ts
(`migrateV1toV2` supplies a `description`, `createDefaultProject` omits it). -/
structure Project : Type where
  id : String
  name : String
  description : Option String
  createdAt : String
  updatedAt : String
deriving DecidableEq, Repr

/-- `SavedTreeV2`: a `SavedTree` together with the `projectId` added by the
v2 schema (see the spread `{ ...migrateTree(tree), projectId: ... }` in
src/persistence.ts). -/
structure SavedTreeV2 extends SavedTree where
  projectId : String

/-- `AppState` (v1) from src/types.ts. -/
structure AppState : Type where
  activeTreeId : Option String
  trees : List SavedTree

/-- `AppStateV2`, shaped after the record returned by `migrateV1toV2` in
src/persistence.ts. -/
structure AppStateV2 : Type where
  version : Nat
  activeProjectId : String
  activeTreeId : Option String
  projects : List Project
  trees : List SavedTreeV2

/-- `DEFAULT_PROJECT_ID` from src/persistence.ts. -/
def DEFAULT_PROJECT_ID : String := "default-project"

/-- `migrateTree` from src/persistence.ts:
`{ ...tree, resolutions: tree.resolutions ?? [] }`. -/
def migrateTree (tree : SavedTree) : SavedTree :=
  { tree with resolutions := some (tree.resolutions.getD []) }

/-- `migrateV1toV2` from src/persistence.ts; `new Date().toISOString()` is
the `now` parameter. -/
def migrateV1toV2 (now : String) (v1State : AppState) : AppStateV2 :=
  let defaultProject : Project :=
    { id := DEFAULT_PROJECT_ID
      name := "Default Project"
      description := some "Migrated investigations"
      createdAt := now
      updatedAt := now }
  let migratedTrees : List SavedTreeV2 :=
    v1State.trees.map (fun tree =>
      { migrateTree tree with projectId := DEFAULT_PROJECT_ID })
  { version := 2
    activeProjectId := DEFAULT_PROJECT_ID
    activeTreeId := v1State.activeTreeId
    projects := [defaultProject]
    trees := migratedTrees }

/-- The JSON document found in localStorage, after parsing: either a v1
document (no `version` field) or a v2 document. -/
inductive StoredState : Type where
  | v1 (s : AppState)
  | v2 (s : AppStateV2)

/-- `loadAppState` from src/persistence.ts, applied to an already-parsed
stored document.  The `Bool` records whether `saveAppState` was invoked
during the load (the v1 branch persists the migrated state immediately;
the v2 branch does not write). -/
def loadParsedState (now : String) : StoredState → AppStateV2 × Bool
  | .v1 s => (migrateV1toV2 now s, true)
  | .v2 s =>
    ({ s with
        trees := s.trees.map (fun tree =>
          { migrateTree tree.toSavedTree with projectId := tree.projectId }) },
     false)

/-! ### Import validation (src/persistence.ts) -/

/-- A candidate record of an import file, as seen after `JSON.parse` and
before validation: every field the validator or `migrateTree` touches may be
absent. -/
structure RawTree : Type where
  id : Option String
  name : Option String
  createdAt : Option String
  updatedAt : Option String
  treeData : Option CauseNode
  actions : Option (List ActionItem)
  notes : Option (List Note)
  resolutions : Option (List ResolutionItem)
  isResolved : Option Bool

/-- JavaScript truthiness of an optional string field: absent and `''` are
falsy. -/
def truthyString : Option String → Bool
  | none => false
  | some s => s ≠ ""

/-- JavaScript truthiness of the optional `treeData` object: any present
object is truthy. -/
def truthyTree : Option CauseNode → Bool
  | none => false
  | some _ => true

/-- The record name used in the rejection message:
`(item as { name?: string }).name || 'unknown'`. -/
def rawDisplayName (t : RawTree) : String :=
  match t.name with
  | some s => if s = "" then "unknown" else s
  | none => "unknown"

/-- `migrateTree` as applied to a raw candidate record. -/
def rawMigrate (t : RawTree) : RawTree :=
  { t with resolutions := some (t.resolutions.getD []) }

/-- Outcome of an import parse: the promise either rejects with an error
message or resolves with the validated records. -/
inductive ImportResult : Type where
  | rejected (message : String)
  | resolved (trees : List RawTree)

/-- The validation loop of `parseImportFile` (src/persistence.ts lines
237-244): reject on the first invalid record, otherwise push the migrated
record. -/
def validateRecords : List RawTree → ImportResult
  | [] => .resolved []
  | tree :: rest =>
    if !truthyTree tree.treeData || !truthyString tree.id || !truthyString tree.name then
      .rejected ("Invalid investigation in file: \"" ++ rawDisplayName tree ++ "\"")
    else
      match validateRecords rest with
      | .rejected m => .rejected m
      | .resolved vs => .resolved (rawMigrate tree :: vs)

/-- The parsed JSON payload of an import file: a top-level array or a single
object (`Array.isArray(data) ? data : [data]`). -/
inductive ImportPayload : Type where
  | arr (items : List RawTree)
  | single (item : RawTree)

/-- The candidate list of `parseImportFile`. -/
def candidatesOf : ImportPayload → List RawTree
  | .arr items => items
  | .single item => [item]

/-- `parseImportFile` from src/persistence.ts lines 223-254, applied to the
parsed payload. -/
def parseImportFile (data : ImportPayload) : ImportResult :=
  let candidates := candidatesOf data
  if candidates.isEmpty then .rejected "File contains no investigations"
  else validateRecords candidates

/-- `importAllTreesFromJson` from src/persistence.ts lines 186-211, applied
to the parsed payload: requires a non-empty array, rejects on the first
invalid record, otherwise resolves all records migrated. -/
def importAllTreesFromJson (data : ImportPayload) : ImportResult :=
  match data with
  | .single _ => .rejected "Invalid bulk export file: expected an array of investigations"
  | .arr items =>
    if items.isEmpty then
      .rejected "Invalid bulk export file: expected an array of investigations"
    else
      match items.find? (fun tree =>
        !truthyTree tree.treeData || !truthyString tree.id || !truthyString tree.name) with
      | some tree => .rejected ("Invalid tree in file: \"" ++ rawDisplayName tree ++ "\"")
      | none => .resolved (items.map rawMigrate)

/-! ### Tree operations (src/App.tsx) -/

mutual
/-- `findNode` from src/App.tsx: first match in pre-order. -/
def findNode : CauseNode → String → Option CauseNode
  | .mk i p l d r s t rc cs, target =>
    if i = target then some (.mk i p l d r s t rc cs)
    else
      match cs with
      | some cs' => findNodeList cs' target
      | none => none

def findNodeList : List CauseNode → String → Option CauseNode
  | [], _ => none
  | c :: cs, target =>
    match findNode c target with
    | some found => some found
    | none => findNodeList cs target
end

mutual
/-- `updateTree` from src/App.tsx: replace the node whose id matches
`updatedNode.id` by `updatedNode`; when no id matches along a branch the
branch is rebuilt unchanged. -/
def updateTree : CauseNode → CauseNode → CauseNode
  | .mk i p l d r s t rc cs, updatedNode =>
    if i = updatedNode.id then updatedNode
    else
      match cs with
      | some cs' => .mk i p l d r s t rc (some (updateTreeList cs' updatedNode))
      | none => .mk i p l d r s t rc none

def updateTreeList : List CauseNode → CauseNode → List CauseNode
  | [], _ => []
  | c :: cs, updatedNode => updateTree c updatedNode :: updateTreeList cs updatedNode
end

/-- The node literal built by `addChildNode` in src/App.tsx;
`crypto.randomUUID()` is the `freshId` parameter. -/
def newChildNode (freshId parentId : String) : CauseNode :=
  .mk freshId (some parentId) "New Cause" "" "" .PENDING .CAUSE none (some [])

mutual
/-- `addRecursive` from `addChildNode` in src/App.tsx: append `newNode` to
the children of the node whose id is `parentId`
(`[...(node.children || []), newNode]`); elsewhere map over present
children. -/
def addRecursive (parentId : String) (newNode : CauseNode) : CauseNode → CauseNode
  | .mk i p l d r s t rc cs =>
    if i = parentId then
      .mk i p l d r s t rc (some (cs.getD [] ++ [newNode]))
    else
      match cs with
      | some cs' => .mk i p l d r s t rc (some (addRecursiveList parentId newNode cs'))
      | none => .mk i p l d r s t rc none

def addRecursiveList (parentId : String) (newNode : CauseNode) :
    List CauseNode → List CauseNode
  | [] => []
  | c :: cs => addRecursive parentId newNode c :: addRecursiveList parentId newNode cs
end

/-- `addChildNode` from src/App.tsx lines 171-204, acting on the active
tree's root. -/
def addChildNode (freshId parentId : String) (root : CauseNode) : CauseNode :=
  addRecursive parentId (newChildNode freshId parentId) root

mutual
/-- `deleteRecursive` from `deleteNode` in src/App.tsx lines 223-231:
`if (!node.children) return node`, otherwise filter out children whose id
is `nodeId` and recurse into the survivors. -/
def deleteRecursive (nodeId : String) : CauseNode → CauseNode
  | .mk i p l d r s t rc cs =>
    match cs with
    | none => .mk i p l d r s t rc none
    | some cs' =>
      .mk i p l d r s t rc
        (some (deleteRecursiveList nodeId (cs'.filter (fun child => child.id ≠ nodeId))))
termination_by c => sizeOf c
decreasing_by
  simp_wf
  have hle : ∀ (p : CauseNode → Bool) (l : List CauseNode),
      sizeOf (l.filter p) ≤ sizeOf l := by
    intro p l
    induction l with
    | nil => simp
    | cons a l ih =>
      rw [List.filter_cons]
      split
      · rw [List.cons.sizeOf_spec, List.cons.sizeOf_spec]
        omega
      · rw [List.cons.sizeOf_spec]
        omega
  refine lt_of_le_of_lt (hle _ cs') ?_
  omega

def deleteRecursiveList (nodeId : String) : List CauseNode → List CauseNode
  | [] => []
  | c :: cs => deleteRecursive nodeId c :: deleteRecursiveList nodeId cs
termination_by l => sizeOf l
decreasing_by
  all_goals simp_wf
  all_goals omega
end

/-- `deleteNode` from src/App.tsx lines 207-238: deleting the root id is
rejected with an alert before any mutation; otherwise the user is asked to
confirm (`confirmed`), and on confirmation the recursive delete runs.  The
returned `Option String` is the alert message, if any. -/
def deleteNode (tree : CauseNode) (nodeId : String) (confirmed : Bool) :
    CauseNode × Option String :=
  if nodeId = tree.id then
    (tree, some "Cannot delete the root issue.")
  else if !confirmed then
    (tree, none)
  else
    (deleteRecursive nodeId tree, none)

/-! ### Collection mutators (src/App.tsx) -/

/-- `handleAddNote` from src/App.tsx lines 268-273, restricted to the
`notes` field the updater touches: append the note. -/
def handleAddNote (notes : List Note) (note : Note) : List Note :=
  notes ++ [note]

/-- `handleDeleteNote` from src/App.tsx lines 274-279: keep the notes whose
id differs. -/
def handleDeleteNote (notes : List Note) (id : String) : List Note :=
  notes.filter (fun n => n.id ≠ id)

/-! ### Inspector panel (src/components/InspectorPanel.tsx) -/

/-- `nodeNotes` from InspectorPanel.tsx line 168: the notes whose
`referenceId` equals the selected node's id. -/
def nodeNotesOf (notes : List Note) (selectedNodeId : String) : List Note :=
  notes.filter (fun n => n.referenceId = selectedNodeId)

/-- The alert text of the evidence-gate rejection
(InspectorPanel.tsx line 181). -/
def policyViolationMessage : String :=
  "Policy Violation: You cannot rule out a cause without attaching evidence. Please add a Note marked as Evidence first."

/-- Outcome of `handleStatusChange`: either a rejection (an alert plus a
redirect of the panel to the given tab) with no node update, or the updated
node handed to `onUpdateNode`. -/
inductive StatusChangeOutcome : Type where
  | rejectedWith (alertMessage : String) (redirectTab : String)
  | updated (node : CauseNode)

/-- `handleStatusChange` from src/components/InspectorPanel.tsx lines
176-191: a transition to `RULED_OUT` requires an evidence-flagged note among
the selected node's notes; any transition to a status other than `CONFIRMED`
clears `isRootCause`. -/
def handleStatusChange (selectedNode : CauseNode) (notes : List Note)
    (newStatus : NodeStatus) : StatusChangeOutcome :=
  let nodeNotes := nodeNotesOf notes selectedNode.id
  if newStatus = .RULED_OUT ∧ ¬ nodeNotes.any (fun n => n.isEvidence) then
    .rejectedWith policyViolationMessage "notes"
  else
    let updatedNode := selectedNode.withStatus newStatus
    let updatedNode :=
      if newStatus ≠ .CONFIRMED then updatedNode.withIsRootCause (some false)
      else updatedNode
    .updated updatedNode

/-- The status-change operation end to end: on rejection the tree is left
untouched and the alert message surfaces; on success `onUpdateNode` routes
the updated node through `updateTree`. -/
def statusChangeOnTree (root selectedNode : CauseNode) (notes : List Note)
    (newStatus : NodeStatus) : CauseNode × Option String :=
  match handleStatusChange selectedNode notes newStatus with
  | .rejectedWith m _ => (root, some m)
  | .updated u => (updateTree root u, none)

/-- The note-content edit handler (InspectorPanel.tsx lines 646-650): the
note is deleted by id, then the modified copy is re-added. -/
def editNoteContent (notes : List Note) (note : Note) (newContent : String) :
    List Note :=
  handleAddNote (handleDeleteNote notes note.id) { note with content := newContent }

/-- The evidence-flag toggle handler (InspectorPanel.tsx lines 629-633):
same delete-then-recreate shape with `isEvidence` replaced. -/
def toggleNoteEvidence (notes : List Note) (note : Note) (checked : Bool) :
    List Note :=
  handleAddNote (handleDeleteNote notes note.id) { note with isEvidence := checked }

/-! ### Observation helpers used to state the claims -/

/-- The children list of a node, with an absent field read as the empty
list (`node.children || []`). -/
def CauseNode.childList (c : CauseNode) : List CauseNode :=
  c.children.getD []

/-- The pre-order list of node identifiers of a tree. -/
def treeIds (t : CauseNode) : List String :=
  (flattenTree t).map CauseNode.id

/-- The pre-order list of non-`children` field records of a tree: the
"flattened node set" of a tree up to subtree structure. -/
def flattenFields (t : CauseNode) : List (String × Option String × String ×
    String × String × NodeStatus × NodeType × Option Bool) :=
  (flattenTree t).map CauseNode.fields

/-- Spec-level relation, written from the specification of `addChild`:
`AppendsChildAt parentId newNode t t'` holds when `t'` is identical to `t`
except that `newNode` has been appended as the last child of the node whose
id is `parentId`; every node on the path keeps its other fields, siblings
along the path are untouched and keep their order. -/
inductive AppendsChildAt (parentId : String) (newNode : CauseNode) :
    CauseNode → CauseNode → Prop where
  | here (c : CauseNode) (hid : c.id = parentId) :
      AppendsChildAt parentId newNode c
        (c.withChildren (some (c.childList ++ [newNode])))
  | deeper (c : CauseNode) (pre : List CauseNode) (child child' : CauseNode)
      (post : List CauseNode) (hid : c.id ≠ parentId)
      (hcs : c.children = some (pre ++ child :: post))
      (hrec : AppendsChildAt parentId newNode child child') :
      AppendsChildAt parentId newNode c
        (c.withChildren (some (pre ++ child' :: post)))

/-- The invalidity test of the import validators, as written in the source:
`!tree.treeData || !tree.id || !tree.name`. -/
def rawInvalid (t : RawTree) : Bool :=
  !truthyTree t.treeData || !truthyString t.id || !truthyString t.name

/-- Everything of a v2 tree record except its `resolutions` field, used to
state that the v2 load path changes nothing but the resolutions backfill. -/
def treeViewSansResolutions (t : SavedTreeV2) :
    String × String × String × String × CauseNode × List ActionItem ×
    List Note × Option Bool × String :=
  (t.id, t.name, t.createdAt, t.updatedAt, t.treeData, t.actions,
   t.notes, t.isResolved, t.projectId)

/-! ### Sample data used by the concrete witnesses -/

/-- A concrete leaf cause used in concrete instantiations. -/
def sampleChild : CauseNode :=
  .mk "c1" (some "r") "Bad Seal" "" "" .PENDING .CAUSE none (some [])

/-- A concrete two-node investigation tree. -/
def sampleRoot : CauseNode :=
  .mk "r" none "Widget Failure" "" "" .PENDING .ISSUE none (some [sampleChild])

/-- A concrete import record that passes validation. -/
def sampleValidRaw : RawTree :=
  { id := some "t1", name := some "Tree One", createdAt := some "2024-01-01",
    updatedAt := some "2024-01-02", treeData := some sampleRoot,
    actions := some [], notes := some [], resolutions := none,
    isResolved := none }

/-- A concrete import record that fails validation (missing `treeData`). -/
def sampleInvalidRaw : RawTree :=
  { id := some "t2", name := some "Bad Tree", createdAt := none,
    updatedAt := none, treeData := none, actions := none, notes := none,
    resolutions := none, isResolved := none }

/-! ### Structural lemmas about the tree embedding -/

/-- Induction principle for `CauseNode`: a property holds of every node once
it propagates from children to parent. -/
theorem CauseNode.ind (motive : CauseNode → Prop)
    (h : ∀ i p l d r s t rc cs,
      (∀ c ∈ cs.getD [], motive c) → motive (.mk i p l d r s t rc cs)) :
    ∀ c, motive c := by
  have key : ∀ n (c : CauseNode), sizeOf c ≤ n → motive c := by
    intro n
    induction n with
    | zero =>
      intro c hc
      cases c with
      | mk i p l d r s t rc cs =>
        rw [CauseNode.mk.sizeOf_spec] at hc
        omega
    | succ n ih =>
      intro c hc
      cases c with
      | mk i p l d r s t rc cs =>
        apply h
        intro c' hc'
        apply ih
        have h1 : sizeOf c' < sizeOf (cs.getD []) := List.sizeOf_lt_of_mem hc'
        have h2 : sizeOf (cs.getD []) ≤ sizeOf cs := by
          cases cs with
          | none => simp [Option.getD]
          | some l =>
            rw [Option.getD, Option.some.sizeOf_spec]
            omega
        have h3 : sizeOf cs < sizeOf (CauseNode.mk i p l d r s t rc cs) := by
          rw [CauseNode.mk.sizeOf_spec]
          omega
        omega
  intro c
  exact key (sizeOf c) c le_rfl

theorem flattenList_eq_flatMap (l : List CauseNode) :
    flattenList l = l.flatMap flattenTree := by
  induction l with
  | nil => simp [flattenList]
  | cons c cs ih => simp [flattenList, ih]

theorem flattenTree_mk (i : String) (p : Option String) (l d r : String)
    (s : NodeStatus) (t : NodeType) (rc : Option Bool)
    (cs : Option (List CauseNode)) :
    flattenTree (.mk i p l d r s t rc cs) =
      .mk i p l d r s t rc cs :: (cs.getD []).flatMap flattenTree := by
  cases cs with
  | none => simp [flattenTree, Option.getD]
  | some cs' => simp [flattenTree, Option.getD, flattenList_eq_flatMap]

theorem treeIds_mk (i : String) (p : Option String) (l d r : String)
    (s : NodeStatus) (t : NodeType) (rc : Option Bool)
    (cs : Option (List CauseNode)) :
    treeIds (.mk i p l d r s t rc cs) =
      i :: (cs.getD []).flatMap treeIds := by
  simp only [treeIds, flattenTree_mk, List.map_cons, List.map_flatMap]
  rfl

theorem flattenFields_mk (i : String) (p : Option String) (l d r : String)
    (s : NodeStatus) (t : NodeType) (rc : Option Bool)
    (cs : Option (List CauseNode)) :
    flattenFields (.mk i p l d r s t rc cs) =
      CauseNode.fields (.mk i p l d r s t rc cs) ::
        (cs.getD []).flatMap flattenFields := by
  simp only [flattenFields, flattenTree_mk, List.map_cons, List.map_flatMap]
  rfl

theorem self_mem_flattenTree (t : CauseNode) : t ∈ flattenTree t := by
  cases t with
  | mk i p l d r s ty rc cs =>
    rw [flattenTree_mk]
    exact List.mem_cons_self _ _

theorem mem_flattenTree_mk {sub : CauseNode} {i : String} {p : Option String}
    {l d r : String} {s : NodeStatus} {t : NodeType} {rc : Option Bool}
    {cs : Option (List CauseNode)} :
    sub ∈ flattenTree (.mk i p l d r s t rc cs) ↔
      sub = .mk i p l d r s t rc cs ∨ ∃ c ∈ cs.getD [], sub ∈ flattenTree c := by
  rw [flattenTree_mk]
  simp [List.mem_flatMap]

theorem id_mem_treeIds (t : CauseNode) : t.id ∈ treeIds t :=
  List.mem_map_of_mem CauseNode.id (self_mem_flattenTree t)

theorem mem_treeIds_iff {x : String} {t : CauseNode} :
    x ∈ treeIds t ↔ ∃ c ∈ flattenTree t, c.id = x := by
  simp [treeIds, List.mem_map]

theorem treeIds_subset_of_mem_flatten :
    ∀ t : CauseNode, ∀ sub ∈ flattenTree t, treeIds sub ⊆ treeIds t := by
  intro t
  induction t using CauseNode.ind with
  | h i p l d r s ty rc cs ih =>
    intro sub hsub
    rcases mem_flattenTree_mk.mp hsub with heq | ⟨c, hc, hmem⟩
    · subst heq
      exact fun x hx => hx
    · intro x hx
      rw [treeIds_mk]
      have : x ∈ treeIds c := ih c hc sub hmem hx
      exact List.mem_cons_of_mem _ (List.mem_flatMap_of_mem hc this)

theorem id_mem_treeIds_of_mem_flatten {t sub : CauseNode}
    (h : sub ∈ flattenTree t) : sub.id ∈ treeIds t :=
  treeIds_subset_of_mem_flatten t sub h (id_mem_treeIds sub)

theorem addRecursiveList_eq_map (pid : String) (n : CauseNode)
    (l : List CauseNode) :
    addRecursiveList pid n l = l.map (addRecursive pid n) := by
  induction l with
  | nil => simp [addRecursiveList]
  | cons c cs ih => simp [addRecursiveList, ih]

theorem deleteRecursiveList_eq_map (nodeId : String) (l : List CauseNode) :
    deleteRecursiveList nodeId l = l.map (deleteRecursive nodeId) := by
  induction l with
  | nil => simp [deleteRecursiveList]
  | cons c cs ih => simp [deleteRecursiveList, ih]

theorem updateTreeList_eq_map (u : CauseNode) (l : List CauseNode) :
    updateTreeList l u = l.map (fun c => updateTree c u) := by
  induction l with
  | nil => simp [updateTreeList]
  | cons c cs ih => simp [updateTreeList, ih]

theorem addRecursive_of_not_mem {pid : String} {n : CauseNode} :
    ∀ t : CauseNode, pid ∉ treeIds t → addRecursive pid n t = t := by
  intro t
  induction t using CauseNode.ind with
  | h i p l d r s ty rc cs ih =>
    intro hmem
    rw [treeIds_mk] at hmem
    simp only [List.mem_cons, List.mem_flatMap, not_or, not_exists, not_and] at hmem
    obtain ⟨hne, hchild⟩ := hmem
    have hi : ¬ i = pid := fun h => hne h.symm
    cases cs with
    | none => simp [addRecursive, hi]
    | some cs' =>
      simp only [addRecursive, hi, if_false, addRecursiveList_eq_map]
      congr 1
      congr 1
      have : ∀ c ∈ cs', addRecursive pid n c = c := by
        intro c hc
        exact ih c (by simpa using hc) (fun hx => hchild c (by simpa using hc) hx)
      calc cs'.map (addRecursive pid n) = cs'.map id := List.map_congr_left this
        _ = cs' := List.map_id cs'

theorem deleteRecursive_of_not_mem {nid : String} :
    ∀ t : CauseNode, nid ∉ treeIds t → deleteRecursive nid t = t := by
  intro t
  induction t using CauseNode.ind with
  | h i p l d r s ty rc cs ih =>
    intro hmem
    rw [treeIds_mk] at hmem
    simp only [List.mem_cons, List.mem_flatMap, not_or, not_exists, not_and] at hmem
    obtain ⟨hne, hchild⟩ := hmem
    cases cs with
    | none => simp [deleteRecursive]
    | some cs' =>
      simp only [deleteRecursive, deleteRecursiveList_eq_map]
      congr 1
      congr 1
      have hfilter : cs'.filter (fun child => child.id ≠ nid) = cs' := by
        apply List.filter_eq_self.mpr
        intro c hc
        have : c.id ∈ treeIds c := id_mem_treeIds c
        have hne2 : c.id ≠ nid := by
          intro h
          exact hchild c (by simpa using hc) (h ▸ this)
        simpa using hne2
      rw [hfilter]
      have : ∀ c ∈ cs', deleteRecursive nid c = c := by
        intro c hc
        exact ih c (by simpa using hc) (fun hx => hchild c (by simpa using hc) hx)
      calc cs'.map (deleteRecursive nid) = cs'.map id := List.map_congr_left this
        _ = cs' := List.map_id cs'

theorem eq_root_of_mem_of_id_eq :
    ∀ {t sub : CauseNode}, (treeIds t).Nodup → sub ∈ flattenTree t →
      sub.id = t.id → sub = t := by
  intro t
  cases t with
  | mk i p l d r s ty rc cs =>
    intro sub hnd hmem hid
    rcases mem_flattenTree_mk.mp hmem with heq | ⟨c, hc, hsubmem⟩
    · exact heq
    · exfalso
      rw [treeIds_mk] at hnd
      have hnotin := (List.nodup_cons.mp hnd).1
      apply hnotin
      have h1 : sub.id ∈ treeIds c := id_mem_treeIds_of_mem_flatten hsubmem
      have : sub.id = i := hid
      exact this ▸ List.mem_flatMap_of_mem hc h1

theorem fields_fst (c : CauseNode) : (CauseNode.fields c).1 = c.id := rfl

theorem flattenFields_map_fst (t : CauseNode) :
    (flattenFields t).map (fun f => f.1) = treeIds t := by
  simp only [flattenFields, treeIds, List.map_map]
  rfl

theorem mem_flattenFields_fst {t : CauseNode} {f} (h : f ∈ flattenFields t) :
    f.1 ∈ treeIds t := by
  rw [← flattenFields_map_fst]
  exact List.mem_map_of_mem _ h

theorem appendsChildAt_addRecursive {pid : String} {n : CauseNode} :
    ∀ t : CauseNode, (treeIds t).count pid = 1 →
      AppendsChildAt pid n t (addRecursive pid n t) := by
  intro t
  induction t using CauseNode.ind with
  | h i p l d r s ty rc cs ih =>
    intro hcount
    by_cases hi : i = pid
    · have heq : addRecursive pid n (.mk i p l d r s ty rc cs) =
          (CauseNode.mk i p l d r s ty rc cs).withChildren
            (some ((CauseNode.mk i p l d r s ty rc cs).childList ++ [n])) := by
        unfold addRecursive
        rw [if_pos hi]
        rfl
      rw [heq]
      exact .here _ hi
    · rw [treeIds_mk] at hcount
      have hcnt_tail : ((cs.getD []).flatMap treeIds).count pid = 1 := by
        rw [List.count_cons] at hcount
        simp only [beq_iff_eq] at hcount
        simpa [hi] using hcount
      have hpid_mem : pid ∈ (cs.getD []).flatMap treeIds := by
        have : 0 < ((cs.getD []).flatMap treeIds).count pid := by omega
        exact List.count_pos_iff.mp this
      obtain ⟨c₀, hc₀, hpidc₀⟩ := List.mem_flatMap.mp hpid_mem
      obtain ⟨pre, post, hsplit⟩ := List.append_of_mem hc₀
      have hcnt_split : ((pre.flatMap treeIds).count pid +
          ((treeIds c₀).count pid + (post.flatMap treeIds).count pid)) = 1 := by
        rw [hsplit] at hcnt_tail
        simpa [List.flatMap_append, List.count_append] using hcnt_tail
      have hc₀pos : 0 < (treeIds c₀).count pid := List.count_pos_iff.mpr hpidc₀
      have hpre0 : (pre.flatMap treeIds).count pid = 0 := by omega
      have hpost0 : (post.flatMap treeIds).count pid = 0 := by omega
      have hc₀1 : (treeIds c₀).count pid = 1 := by omega
      have hprenot : ∀ c ∈ pre, pid ∉ treeIds c := by
        intro c hc hmem
        have : pid ∈ pre.flatMap treeIds := List.mem_flatMap_of_mem hc hmem
        rw [← List.count_pos_iff] at this
        omega
      have hpostnot : ∀ c ∈ post, pid ∉ treeIds c := by
        intro c hc hmem
        have : pid ∈ post.flatMap treeIds := List.mem_flatMap_of_mem hc hmem
        rw [← List.count_pos_iff] at this
        omega
      cases cs with
      | none => simp at hc₀
      | some cs' =>
        have hsplit' : cs' = pre ++ c₀ :: post := hsplit
        have hmap : addRecursiveList pid n cs' =
            pre ++ addRecursive pid n c₀ :: post := by
          rw [addRecursiveList_eq_map, hsplit', List.map_append, List.map_cons]
          congr 1
          · calc pre.map (addRecursive pid n) = pre.map id :=
                List.map_congr_left (fun c hc =>
                  addRecursive_of_not_mem c (hprenot c hc))
              _ = pre := List.map_id pre
          · congr 1
            calc post.map (addRecursive pid n) = post.map id :=
                List.map_congr_left (fun c hc =>
                  addRecursive_of_not_mem c (hpostnot c hc))
              _ = post := List.map_id post
        have heq : addRecursive pid n (.mk i p l d r s ty rc (some cs')) =
            (CauseNode.mk i p l d r s ty rc (some cs')).withChildren
              (some (pre ++ addRecursive pid n c₀ :: post)) := by
          simp [addRecursive, hi, CauseNode.withChildren, hmap]
        rw [heq]
        refine AppendsChildAt.deeper _ pre c₀ (addRecursive pid n c₀) post hi ?_ ?_
        · simp [CauseNode.children, hsplit']
        · exact ih c₀ (by simpa using hc₀) hc₀1

theorem filter_flattenFields_of_disjoint {S : List String} {d : CauseNode}
    (h : ∀ x ∈ treeIds d, x ∉ S) :
    (flattenFields d).filter (fun f => f.1 ∉ S) = flattenFields d := by
  apply List.filter_eq_self.mpr
  intro f hf
  simpa using h f.1 (mem_flattenFields_fst hf)

theorem flatMap_filter_keep {S : List String} (l : List CauseNode)
    (h : ∀ d ∈ l, ∀ x ∈ treeIds d, x ∉ S) :
    (l.flatMap flattenFields).filter (fun f => f.1 ∉ S) =
      l.flatMap flattenFields := by
  apply List.filter_eq_self.mpr
  intro f hf
  obtain ⟨d, hd, hfd⟩ := List.mem_flatMap.mp hf
  simpa using h d hd f.1 (mem_flattenFields_fst hfd)

theorem filter_flattenFields_of_subset {d : CauseNode} :
    (flattenFields d).filter (fun f => f.1 ∉ treeIds d) = [] := by
  rw [List.filter_eq_nil_iff]
  intro f hf
  simpa using mem_flattenFields_fst hf

theorem flattenFields_deleteRecursive :
    ∀ t : CauseNode, (treeIds t).Nodup → ∀ sub : CauseNode,
      sub ∈ flattenTree t → sub.id ≠ t.id →
      flattenFields (deleteRecursive sub.id t) =
        (flattenFields t).filter (fun f => f.1 ∉ treeIds sub) := by
  intro t
  induction t using CauseNode.ind with
  | h i p l d r s ty rc cs ih =>
    intro hnd sub hsub hneq
    rcases mem_flattenTree_mk.mp hsub with heq | ⟨c₀, hc₀, hsubc₀⟩
    · exact absurd (by rw [heq]) hneq
    · cases cs with
      | none => simp at hc₀
      | some cs' =>
        have hc₀' : c₀ ∈ cs' := by simpa using hc₀
        obtain ⟨pre, post, hsplit⟩ := List.append_of_mem hc₀'
        rw [treeIds_mk] at hnd
        simp only [Option.getD_some] at hnd
        have hiNot : i ∉ cs'.flatMap treeIds := (List.nodup_cons.mp hnd).1
        have hndtail : (cs'.flatMap treeIds).Nodup := (List.nodup_cons.mp hnd).2
        have hflat : cs'.flatMap treeIds =
            pre.flatMap treeIds ++ (treeIds c₀ ++ post.flatMap treeIds) := by
          rw [hsplit]
          simp [List.flatMap_append, List.flatMap_cons, List.append_assoc]
        rw [hflat] at hndtail
        have h1 := List.nodup_append.mp hndtail
        have h2 := List.nodup_append.mp h1.2.1
        have hndC : (treeIds c₀).Nodup := h2.1
        have hPC : pre.flatMap treeIds |>.Disjoint (treeIds c₀ ++ post.flatMap treeIds) := h1.2.2
        have hCQ : (treeIds c₀).Disjoint (post.flatMap treeIds) := h2.2.2
        have hsubC : treeIds sub ⊆ treeIds c₀ :=
          treeIds_subset_of_mem_flatten c₀ sub hsubc₀
        have hnidC : sub.id ∈ treeIds c₀ := id_mem_treeIds_of_mem_flatten hsubc₀
        have hpreDis : ∀ dd ∈ pre, ∀ x ∈ treeIds dd, x ∉ treeIds sub := by
          intro dd hdd x hx hxS
          exact hPC (List.mem_flatMap_of_mem hdd hx)
            (List.mem_append_left _ (hsubC hxS))
        have hpostDis : ∀ dd ∈ post, ∀ x ∈ treeIds dd, x ∉ treeIds sub := by
          intro dd hdd x hx hxS
          exact hCQ (hsubC hxS) (List.mem_flatMap_of_mem hdd hx)
        have hpreNid : ∀ dd ∈ pre, sub.id ∉ treeIds dd := by
          intro dd hdd hx
          exact hPC (List.mem_flatMap_of_mem hdd hx) (List.mem_append_left _ hnidC)
        have hpostNid : ∀ dd ∈ post, sub.id ∉ treeIds dd := by
          intro dd hdd hx
          exact hCQ hnidC (List.mem_flatMap_of_mem hdd hx)
        have hpreIdNe : ∀ dd ∈ pre, dd.id ≠ sub.id := by
          intro dd hdd h
          exact hpreNid dd hdd (h ▸ id_mem_treeIds dd)
        have hpostIdNe : ∀ dd ∈ post, dd.id ≠ sub.id := by
          intro dd hdd h
          exact hpostNid dd hdd (h ▸ id_mem_treeIds dd)
        have hiSub : i ∉ treeIds sub := by
          intro hmem
          exact hiNot (List.mem_flatMap_of_mem hc₀' (hsubC hmem))
        have hdel : deleteRecursive sub.id (CauseNode.mk i p l d r s ty rc (some cs')) =
            CauseNode.mk i p l d r s ty rc
              (some ((cs'.filter (fun child => child.id ≠ sub.id)).map
                (deleteRecursive sub.id))) := by
          rw [deleteRecursive, deleteRecursiveList_eq_map]
        rw [hdel, flattenFields_mk, flattenFields_mk]
        simp only [Option.getD_some]
        rw [List.filter_cons]
        have hhead : (decide ((CauseNode.fields
            (CauseNode.mk i p l d r s ty rc (some cs'))).1 ∉ treeIds sub)) = true := by
          simpa [fields_fst] using hiSub
        rw [if_pos hhead]
        have hfieldsEq : CauseNode.fields (CauseNode.mk i p l d r s ty rc (some cs')) =
            CauseNode.fields (CauseNode.mk i p l d r s ty rc
              (some ((cs'.filter (fun child => child.id ≠ sub.id)).map
                (deleteRecursive sub.id)))) := rfl
        rw [← hfieldsEq]
        congr 1
        by_cases hcid : c₀.id = sub.id
        · have hsubeq : sub = c₀ := eq_root_of_mem_of_id_eq hndC hsubc₀ hcid.symm
          have hfiltered : cs'.filter (fun child => child.id ≠ sub.id) = pre ++ post := by
            rw [hsplit, List.filter_append, List.filter_cons]
            have : (decide (c₀.id ≠ sub.id)) = false := by simp [hcid]
            rw [this]
            simp only [Bool.false_eq_true, if_false]
            rw [List.filter_eq_self.mpr (fun dd hdd => by simpa using hpreIdNe dd hdd),
              List.filter_eq_self.mpr (fun dd hdd => by simpa using hpostIdNe dd hdd)]
          rw [hfiltered]
          have hmapid : (pre ++ post).map (deleteRecursive sub.id) = pre ++ post := by
            rw [List.map_append]
            congr 1
            · calc pre.map (deleteRecursive sub.id) = pre.map id :=
                  List.map_congr_left (fun dd hdd =>
                    deleteRecursive_of_not_mem dd (hpreNid dd hdd))
                _ = pre := List.map_id pre
            · calc post.map (deleteRecursive sub.id) = post.map id :=
                  List.map_congr_left (fun dd hdd =>
                    deleteRecursive_of_not_mem dd (hpostNid dd hdd))
                _ = post := List.map_id post
          rw [hmapid]
          have hdrop : (flattenFields c₀).filter (fun f => f.1 ∉ treeIds sub) = [] := by
            rw [hsubeq]
            exact filter_flattenFields_of_subset
          rw [hsplit]
          simp only [List.flatMap_append, List.flatMap_cons, List.filter_append]
          rw [flatMap_filter_keep pre hpreDis, flatMap_filter_keep post hpostDis, hdrop]
          simp
        · have hfiltered : cs'.filter (fun child => child.id ≠ sub.id) = cs' := by
            apply List.filter_eq_self.mpr
            intro dd hdd
            rw [hsplit] at hdd
            rcases List.mem_append.mp hdd with hdd | hdd
            · simpa using hpreIdNe dd hdd
            · rcases List.mem_cons.mp hdd with hdd | hdd
              · subst hdd
                simpa using hcid
              · simpa using hpostIdNe dd hdd
          rw [hfiltered]
          have hmap : cs'.map (deleteRecursive sub.id) =
              pre ++ deleteRecursive sub.id c₀ :: post := by
            rw [hsplit, List.map_append, List.map_cons]
            congr 1
            · calc pre.map (deleteRecursive sub.id) = pre.map id :=
                  List.map_congr_left (fun dd hdd =>
                    deleteRecursive_of_not_mem dd (hpreNid dd hdd))
                _ = pre := List.map_id pre
            · congr 1
              calc post.map (deleteRecursive sub.id) = post.map id :=
                  List.map_congr_left (fun dd hdd =>
                    deleteRecursive_of_not_mem dd (hpostNid dd hdd))
                _ = post := List.map_id post
          rw [hmap]
          have hIH : flattenFields (deleteRecursive sub.id c₀) =
              (flattenFields c₀).filter (fun f => f.1 ∉ treeIds sub) :=
            ih c₀ hc₀ hndC sub hsubc₀ (fun h => hcid h.symm)
          rw [hsplit]
          simp only [List.flatMap_append, List.flatMap_cons, List.filter_append]
          rw [flatMap_filter_keep pre hpreDis, flatMap_filter_keep post hpostDis, hIH]

theorem status_withStatus (c : CauseNode) (s : NodeStatus) :
    (c.withStatus s).status = s := by
  cases c
  rfl

theorem status_withIsRootCause (c : CauseNode) (rc : Option Bool) :
    (c.withIsRootCause rc).status = c.status := by
  cases c
  rfl

theorem isRootCause_withIsRootCause (c : CauseNode) (rc : Option Bool) :
    (c.withIsRootCause rc).isRootCause = rc := by
  cases c
  rfl

theorem any_evidence_iff (notes : List Note) (nodeId : String) :
    ((nodeNotesOf notes nodeId).any (fun n => n.isEvidence) = true ↔
      ∃ n ∈ notes, n.referenceId = nodeId ∧ n.isEvidence = true) := by
  simp [nodeNotesOf, List.any_eq_true, List.mem_filter]

theorem validateRecords_rejected :
    ∀ l : List RawTree, (∃ t ∈ l, rawInvalid t = true) →
      ∃ t ∈ l, rawInvalid t = true ∧
        validateRecords l =
          .rejected ("Invalid investigation in file: \"" ++ rawDisplayName t ++ "\"") := by
  intro l
  induction l with
  | nil =>
    rintro ⟨t, ht, _⟩
    simp at ht
  | cons a l ih =>
    intro hex
    by_cases ha : rawInvalid a = true
    · refine ⟨a, List.mem_cons_self _ _, ha, ?_⟩
      have hcond : (!truthyTree a.treeData || !truthyString a.id ||
          !truthyString a.name) = true := ha
      simp [validateRecords, hcond]
    · have ha2 : (!truthyTree a.treeData || !truthyString a.id ||
          !truthyString a.name) = false := by
        have : rawInvalid a = false := by simpa using ha
        exact this
      obtain ⟨t, ht, hinv⟩ := hex
      rcases List.mem_cons.mp ht with rfl | htl
      · exact absurd hinv ha
      · obtain ⟨t₀, ht₀, hinv₀, heq⟩ := ih ⟨t, htl, hinv⟩
        refine ⟨t₀, List.mem_cons_of_mem _ ht₀, hinv₀, ?_⟩
        simp [validateRecords, ha2, heq]

theorem validateRecords_ok :
    ∀ l : List RawTree, (∀ t ∈ l, rawInvalid t = false) →
      validateRecords l = .resolved (l.map rawMigrate) := by
  intro l
  induction l with
  | nil => intro _; simp [validateRecords]
  | cons a l ih =>
    intro hall
    have ha2 : (!truthyTree a.treeData || !truthyString a.id ||
        !truthyString a.name) = false := hall a (List.mem_cons_self _ _)
    have hrest := ih (fun t ht => hall t (List.mem_cons_of_mem _ ht))
    simp [validateRecords, ha2, hrest]

theorem countNodes_foldl (nodes : List CauseNode) :
    ∀ acc : NodeStatusCounts,
      nodes.foldl (fun counts node => bumpNodeCount counts node.status) acc =
        ⟨acc.PENDING + (nodes.filter (fun c => c.status = .PENDING)).length,
         acc.ACTIVE + (nodes.filter (fun c => c.status = .ACTIVE)).length,
         acc.RULED_OUT + (nodes.filter (fun c => c.status = .RULED_OUT)).length,
         acc.CONFIRMED + (nodes.filter (fun c => c.status = .CONFIRMED)).length⟩ := by
  induction nodes with
  | nil => intro acc; simp
  | cons n ns ih =>
    intro acc
    rw [List.foldl_cons, ih]
    cases hs : n.status <;>
      simp [bumpNodeCount, hs, List.filter_cons, NodeStatusCounts.mk.injEq] <;>
      omega

theorem countActions_foldl (actions : List ActionItem) :
    ∀ acc : ActionStatusCounts,
      actions.foldl (fun counts action => bumpActionCount counts action.status) acc =
        ⟨acc.openCount + (actions.filter (fun a => a.status = .Open)).length,
         acc.inProgressCount + (actions.filter (fun a => a.status = .InProgress)).length,
         acc.completeCount + (actions.filter (fun a => a.status = .Complete)).length,
         acc.blockedCount + (actions.filter (fun a => a.status = .Blocked)).length,
         acc.closedCount + (actions.filter (fun a => a.status = .Closed)).length⟩ := by
  induction actions with
  | nil => intro acc; simp
  | cons a as ih =>
    intro acc
    rw [List.foldl_cons, ih]
    cases hs : a.status <;>
      simp [bumpActionCount, hs, List.filter_cons, ActionStatusCounts.mk.injEq] <;>
      omega

/-- C1: the status-change operation to RULED_OUT succeeds (the node's status
becomes RULED_OUT) iff some Note of the investigation has `referenceId` equal
to the node's id and `isEvidence = true`; with no such note the operation
leaves the tree untouched and surfaces the policy-violation message. -/
theorem c1_ruled_out_requires_evidence (root selectedNode : CauseNode)
    (notes : List Note) :
    ((∃ u, handleStatusChange selectedNode notes .RULED_OUT = .updated u ∧
        u.status = .RULED_OUT) ↔
      ∃ n ∈ notes, n.referenceId = selectedNode.id ∧ n.isEvidence = true) ∧
    ((¬ ∃ n ∈ notes, n.referenceId = selectedNode.id ∧ n.isEvidence = true) →
      statusChangeOnTree root selectedNode notes .RULED_OUT =
        (root, some policyViolationMessage)) := by
  by_cases hev : (nodeNotesOf notes selectedNode.id).any (fun n => n.isEvidence) = true
  · have hex := (any_evidence_iff notes selectedNode.id).mp hev
    refine ⟨⟨fun _ => hex, fun _ => ?_⟩, fun hnot => absurd hex hnot⟩
    refine ⟨(selectedNode.withStatus .RULED_OUT).withIsRootCause (some false), ?_, ?_⟩
    · simp [handleStatusChange, hev]
    · rw [status_withIsRootCause, status_withStatus]
  · have hnotex : ¬ ∃ n ∈ notes, n.referenceId = selectedNode.id ∧ n.isEvidence = true :=
      fun hx => hev ((any_evidence_iff notes selectedNode.id).mpr hx)
    have hrej : handleStatusChange selectedNode notes .RULED_OUT =
        .rejectedWith policyViolationMessage "notes" := by
      simp [handleStatusChange, hev]
    refine ⟨⟨?_, fun hx => absurd hx hnotex⟩, fun _ => ?_⟩
    · rintro ⟨u, hu, _⟩
      rw [hrej] at hu
      exact StatusChangeOutcome.noConfusion hu
    · simp [statusChangeOnTree, hrej]

/-- Witness for C1: a node with zero evidence notes; the RULED_OUT attempt
is a no-op on the tree and surfaces the policy-violation alert. -/
theorem c1_ruled_out_requires_evidence_witness :
    statusChangeOnTree sampleRoot sampleChild [] .RULED_OUT =
      (sampleRoot, some policyViolationMessage) :=
  (c1_ruled_out_requires_evidence sampleRoot sampleChild []).2 (by simp)

/-- C2: every status change away from CONFIRMED produced by
`handleStatusChange` carries `isRootCause = false`, so the invariant
"root-cause flag false whenever status is not CONFIRMED" is preserved by
every status change. -/
theorem c2_non_confirmed_clears_root_cause (selectedNode : CauseNode)
    (notes : List Note) (newStatus : NodeStatus) (u : CauseNode)
    (h : handleStatusChange selectedNode notes newStatus = .updated u) :
    u.status = newStatus ∧
    (newStatus ≠ .CONFIRMED → u.isRootCause = some false) ∧
    (u.status ≠ .CONFIRMED → u.isRootCause = some false) := by
  simp only [handleStatusChange] at h
  split at h
  · exact StatusChangeOutcome.noConfusion h
  · have hu : (if newStatus ≠ .CONFIRMED then
        (selectedNode.withStatus newStatus).withIsRootCause (some false)
      else selectedNode.withStatus newStatus) = u :=
      StatusChangeOutcome.updated.inj h
    by_cases hconf : newStatus = .CONFIRMED
    · rw [if_neg (fun hne => hne hconf)] at hu
      refine ⟨?_, fun hne => absurd hconf hne, fun hs => ?_⟩
      · rw [← hu, status_withStatus]
      · exfalso
        apply hs
        rw [← hu, status_withStatus]
        exact hconf
    · rw [if_pos hconf] at hu
      refine ⟨?_, fun _ => ?_, fun _ => ?_⟩
      · rw [← hu, status_withIsRootCause, status_withStatus]
      · rw [← hu, isRootCause_withIsRootCause]
      · rw [← hu, isRootCause_withIsRootCause]

/-- Witness for C2: a CONFIRMED node flagged as root cause, moved to ACTIVE;
the produced node has its root-cause flag cleared. -/
theorem c2_non_confirmed_clears_root_cause_witness :
    (CauseNode.mk "c1" (some "r") "Bad Seal" "" "" .ACTIVE .CAUSE (some false)
      (some [])).status = .ACTIVE ∧
    (NodeStatus.ACTIVE ≠ .CONFIRMED →
      (CauseNode.mk "c1" (some "r") "Bad Seal" "" "" .ACTIVE .CAUSE (some false)
        (some [])).isRootCause = some false) ∧
    ((CauseNode.mk "c1" (some "r") "Bad Seal" "" "" .ACTIVE .CAUSE (some false)
        (some [])).status ≠ .CONFIRMED →
      (CauseNode.mk "c1" (some "r") "Bad Seal" "" "" .ACTIVE .CAUSE (some false)
        (some [])).isRootCause = some false) :=
  c2_non_confirmed_clears_root_cause
    (CauseNode.mk "c1" (some "r") "Bad Seal" "" "" .CONFIRMED .CAUSE (some true)
      (some []))
    [] .ACTIVE
    (CauseNode.mk "c1" (some "r") "Bad Seal" "" "" .ACTIVE .CAUSE (some false)
      (some []))
    (by rfl)

/-- C3: `addChild` appends the new node as the last child of the node whose
id is `parentId` and changes nothing else (the `AppendsChildAt` relation),
and is the identity when no node of the tree has that id. -/
theorem c3_addChild_appends_or_noop (root : CauseNode) (parentId : String)
    (newNode : CauseNode) :
    (parentId ∉ treeIds root → addRecursive parentId newNode root = root) ∧
    ((treeIds root).Nodup → parentId ∈ treeIds root →
      AppendsChildAt parentId newNode root (addRecursive parentId newNode root)) := by
  refine ⟨addRecursive_of_not_mem root, fun hnd hmem => ?_⟩
  exact appendsChildAt_addRecursive root (List.count_eq_one_of_mem hnd hmem)

/-- Witness for C3: appending a node under the child of the sample tree. -/
theorem c3_addChild_appends_or_noop_witness :
    AppendsChildAt "c1" (newChildNode "c2" "c1") sampleRoot
      (addRecursive "c1" (newChildNode "c2" "c1") sampleRoot) :=
  (c3_addChild_appends_or_noop sampleRoot "c1" (newChildNode "c2" "c1")).2
    (by decide) (by decide)

/-- C4: for a tree with unique ids, deleting a non-root node `sub` removes
exactly the nodes of `sub`'s subtree: the flattened field-record list of the
result is the input's with precisely the subtree's ids filtered out, so
every other node keeps its fields and relative order. -/
theorem c4_delete_removes_exactly_subtree (t sub : CauseNode)
    (hnd : (treeIds t).Nodup) (hmem : sub ∈ flattenTree t)
    (hne : sub.id ≠ t.id) :
    flattenFields (deleteRecursive sub.id t) =
      (flattenFields t).filter (fun f => f.1 ∉ treeIds sub) :=
  flattenFields_deleteRecursive t hnd sub hmem hne

/-- Witness for C4: deleting the sample child from the sample tree. -/
theorem c4_delete_removes_exactly_subtree_witness :
    flattenFields (deleteRecursive sampleChild.id sampleRoot) =
      (flattenFields sampleRoot).filter (fun f => f.1 ∉ treeIds sampleChild) :=
  c4_delete_removes_exactly_subtree sampleRoot sampleChild (by decide)
    (by
      rw [show flattenTree sampleRoot = [sampleRoot, sampleChild] from rfl]
      exact List.mem_cons_of_mem _ (List.mem_cons_self _ _))
    (by decide)

/-- C5: attempting to delete the root node never changes the tree — the
caller rejects it with an alert before any mutation — and the recursive
delete itself leaves the root node in place (all its non-children fields
unchanged) for any target id. -/
theorem c5_root_delete_guard (tree : CauseNode) (nodeId : String)
    (confirmed : Bool) :
    deleteNode tree tree.id confirmed =
      (tree, some "Cannot delete the root issue.") ∧
    (deleteRecursive nodeId tree).fields = tree.fields := by
  constructor
  · simp [deleteNode]
  · cases tree with
    | mk i p l d r s ty rc cs =>
      cases cs with
      | none => rw [deleteRecursive]
      | some cs' =>
        rw [deleteRecursive]
        rfl

/-- C6: if any candidate record of an import file lacks a truthy `treeData`,
`id` or `name`, the whole import is rejected with an error naming such a
record (its name, or "unknown"), and no records at all are produced — both
for `parseImportFile` and for `importAllTreesFromJson`. -/
theorem c6_import_all_or_nothing (items : List RawTree) (t₀ : RawTree)
    (h₀ : t₀ ∈ items) (hinv : rawInvalid t₀ = true) :
    (∃ t ∈ items, rawInvalid t = true ∧
      parseImportFile (.arr items) =
        .rejected ("Invalid investigation in file: \"" ++ rawDisplayName t ++ "\"")) ∧
    (∀ result, parseImportFile (.arr items) ≠ .resolved result) ∧
    (∃ t ∈ items, rawInvalid t = true ∧
      importAllTreesFromJson (.arr items) =
        .rejected ("Invalid tree in file: \"" ++ rawDisplayName t ++ "\"")) ∧
    (∀ result, importAllTreesFromJson (.arr items) ≠ .resolved result) := by
  have hempty : items.isEmpty = false := by
    cases items with
    | nil => simp at h₀
    | cons a l => rfl
  obtain ⟨t, ht, hinv', heq⟩ := validateRecords_rejected items ⟨t₀, h₀, hinv⟩
  have hparse : parseImportFile (.arr items) =
      .rejected ("Invalid investigation in file: \"" ++ rawDisplayName t ++ "\"") := by
    simp [parseImportFile, candidatesOf, hempty, heq]
  have hfindSome : (items.find? rawInvalid).isSome := by
    rw [List.find?_isSome]
    exact ⟨t₀, h₀, hinv⟩
  obtain ⟨tf, hf⟩ := Option.isSome_iff_exists.mp hfindSome
  have hftf : rawInvalid tf = true := List.find?_some hf
  have hmemtf : tf ∈ items := List.mem_of_find?_eq_some hf
  have himport : importAllTreesFromJson (.arr items) =
      .rejected ("Invalid tree in file: \"" ++ rawDisplayName tf ++ "\"") := by
    have hf' : items.find? (fun tree => !truthyTree tree.treeData ||
        !truthyString tree.id || !truthyString tree.name) = some tf := hf
    simp [importAllTreesFromJson, hempty, hf']
  refine ⟨⟨t, ht, hinv', hparse⟩, ?_, ⟨tf, hmemtf, hftf, himport⟩, ?_⟩
  · intro result hres
    rw [hparse] at hres
    exact ImportResult.noConfusion hres
  · intro result hres
    rw [himport] at hres
    exact ImportResult.noConfusion hres

/-- Witness for C6: a file with one valid and one invalid record is rejected
whole, naming the invalid record, for both import entry points. -/
theorem c6_import_all_or_nothing_witness :
    (∃ t ∈ [sampleValidRaw, sampleInvalidRaw], rawInvalid t = true ∧
      parseImportFile (.arr [sampleValidRaw, sampleInvalidRaw]) =
        .rejected ("Invalid investigation in file: \"" ++ rawDisplayName t ++ "\"")) ∧
    (∀ result, parseImportFile (.arr [sampleValidRaw, sampleInvalidRaw]) ≠
      .resolved result) ∧
    (∃ t ∈ [sampleValidRaw, sampleInvalidRaw], rawInvalid t = true ∧
      importAllTreesFromJson (.arr [sampleValidRaw, sampleInvalidRaw]) =
        .rejected ("Invalid tree in file: \"" ++ rawDisplayName t ++ "\"")) ∧
    (∀ result, importAllTreesFromJson (.arr [sampleValidRaw, sampleInvalidRaw]) ≠
      .resolved result) :=
  c6_import_all_or_nothing [sampleValidRaw, sampleInvalidRaw] sampleInvalidRaw
    (List.mem_cons_of_mem _ (List.mem_cons_self _ _)) (by decide)

theorem view_backfill (t : SavedTreeV2) :
    treeViewSansResolutions
      { migrateTree t.toSavedTree with projectId := t.projectId } =
      treeViewSansResolutions t := by
  cases t with
  | mk base pid =>
    cases base
    rfl

theorem backfill_id_of_isSome (t : SavedTreeV2) (h : t.resolutions.isSome) :
    { migrateTree t.toSavedTree with projectId := t.projectId } = t := by
  cases t with
  | mk base pid =>
    cases base with
    | mk id name ca ua td ac no res ir =>
      cases res with
      | none => simp [SavedTree.resolutions] at h
      | some rl => rfl

/-- C7: migrating a v1 document yields a version-2 state with exactly one
synthesized project (id `default-project`, name "Default Project"), every
tree assigned to it and its resolutions backfilled, persisted immediately;
re-loading the migrated state changes nothing, and loading any v2 state
changes nothing beyond the resolutions backfill and does not write. -/
theorem c7_v1_to_v2_migration (now now2 : String) (s : AppState)
    (s2 : AppStateV2) :
    (migrateV1toV2 now s).version = 2 ∧
    (migrateV1toV2 now s).projects.map (fun pr => (pr.id, pr.name)) =
      [("default-project", "Default Project")] ∧
    (migrateV1toV2 now s).activeProjectId = "default-project" ∧
    (migrateV1toV2 now s).activeTreeId = s.activeTreeId ∧
    (∀ t ∈ (migrateV1toV2 now s).trees, t.projectId = "default-project") ∧
    (migrateV1toV2 now s).trees.map (fun t => t.toSavedTree) =
      s.trees.map migrateTree ∧
    (∀ t ∈ (migrateV1toV2 now s).trees, t.resolutions.isSome = true) ∧
    loadParsedState now (.v1 s) = (migrateV1toV2 now s, true) ∧
    loadParsedState now2 (.v2 (migrateV1toV2 now s)) =
      (migrateV1toV2 now s, false) ∧
    (loadParsedState now2 (.v2 s2)).2 = false ∧
    (loadParsedState now2 (.v2 s2)).1.version = s2.version ∧
    (loadParsedState now2 (.v2 s2)).1.activeProjectId = s2.activeProjectId ∧
    (loadParsedState now2 (.v2 s2)).1.activeTreeId = s2.activeTreeId ∧
    (loadParsedState now2 (.v2 s2)).1.projects = s2.projects ∧
    (loadParsedState now2 (.v2 s2)).1.trees.map treeViewSansResolutions =
      s2.trees.map treeViewSansResolutions ∧
    (loadParsedState now2 (.v2 s2)).1.trees.map (fun t => t.resolutions) =
      s2.trees.map (fun t => some (t.resolutions.getD [])) := by
  have hall : ∀ t ∈ (migrateV1toV2 now s).trees, t.resolutions.isSome = true := by
    intro t ht
    simp only [migrateV1toV2, List.mem_map] at ht
    obtain ⟨a, _, rfl⟩ := ht
    rfl
  have hsecond : loadParsedState now2 (.v2 (migrateV1toV2 now s)) =
      (migrateV1toV2 now s, false) := by
    have htrees : (migrateV1toV2 now s).trees.map (fun t =>
        { migrateTree t.toSavedTree with projectId := t.projectId }) =
        (migrateV1toV2 now s).trees := by
      calc (migrateV1toV2 now s).trees.map (fun t =>
            { migrateTree t.toSavedTree with projectId := t.projectId })
          = (migrateV1toV2 now s).trees.map id :=
            List.map_congr_left (fun t ht =>
              backfill_id_of_isSome t (hall t ht))
        _ = (migrateV1toV2 now s).trees := List.map_id _
    simp only [loadParsedState, htrees]
  refine ⟨rfl, rfl, rfl, rfl, ?_, ?_, hall, rfl, hsecond, rfl, rfl, rfl, rfl,
    rfl, ?_, ?_⟩
  · intro t ht
    simp only [migrateV1toV2, List.mem_map] at ht
    obtain ⟨a, _, rfl⟩ := ht
    rfl
  · simp only [migrateV1toV2, List.map_map]
    rfl
  · simp only [loadParsedState, List.map_map]
    exact List.map_congr_left (fun t _ => view_backfill t)
  · simp only [loadParsedState, List.map_map]
    rfl

/-- C8 (recorded inconsistency): the status list the UI offers and stores
for resolutions (Draft, Approved, In Progress, Implemented, Verified,
Closed — including the `'Draft'` default of a new resolution) disagrees
with the `ResolutionStatus` union declared in src/types.ts, which instead
contains Open and On Hold and lacks Draft and Approved. -/
theorem c8_resolution_status_sets_disagree :
    defaultNewResolutionStatus ∈ RESOLUTION_STATUSES ∧
    defaultNewResolutionStatus ∉ resolutionStatusDeclaredValues ∧
    "Approved" ∈ RESOLUTION_STATUSES ∧
    "Approved" ∉ resolutionStatusDeclaredValues ∧
    "Open" ∈ resolutionStatusDeclaredValues ∧
    "Open" ∉ RESOLUTION_STATUSES ∧
    "On Hold" ∈ resolutionStatusDeclaredValues ∧
    "On Hold" ∉ RESOLUTION_STATUSES := by decide

/-- C9: `countNodesByStatus` returns a record with all four status keys
present, each the exact count of nodes with that status (zero when absent);
`countActionsByStatus` likewise has every declared action status key
present and zero-filled; a freshly created single-node tree counts as
PENDING 1 and 0 elsewhere. -/
theorem c9_status_counts_zero_filled (nodes : List CauseNode)
    (actions : List ActionItem) (freshId label : String) :
    countNodesByStatus nodes =
      ⟨(nodes.filter (fun c => c.status = .PENDING)).length,
       (nodes.filter (fun c => c.status = .ACTIVE)).length,
       (nodes.filter (fun c => c.status = .RULED_OUT)).length,
       (nodes.filter (fun c => c.status = .CONFIRMED)).length⟩ ∧
    countActionsByStatus actions =
      ⟨(actions.filter (fun a => a.status = .Open)).length,
       (actions.filter (fun a => a.status = .InProgress)).length,
       (actions.filter (fun a => a.status = .Complete)).length,
       (actions.filter (fun a => a.status = .Blocked)).length,
       (actions.filter (fun a => a.status = .Closed)).length⟩ ∧
    countNodesByStatus (flattenTree (createInitialTree freshId label)) =
      ⟨1, 0, 0, 0⟩ ∧
    countActionsByStatus [] = ⟨0, 0, 0, 0, 0⟩ := by
  refine ⟨?_, ?_, rfl, rfl⟩
  · rw [countNodesByStatus, countNodes_foldl]
    simp
  · rw [countActionsByStatus, countActions_foldl]
    simp

/-- C10: editing a note's content or toggling its evidence flag is
delete-then-recreate — the modified copy (same note, only the edited field
replaced) is appended at the end of the notes list, and all other notes keep
their relative order. -/
theorem c10_note_edit_delete_then_recreate (notes : List Note) (note : Note)
    (newContent : String) (checked : Bool) :
    editNoteContent notes note newContent =
      notes.filter (fun n => n.id ≠ note.id) ++
        [{ note with content := newContent }] ∧
    (editNoteContent notes note newContent).getLast? =
      some { note with content := newContent } ∧
    (editNoteContent notes note newContent).dropLast =
      notes.filter (fun n => n.id ≠ note.id) ∧
    toggleNoteEvidence notes note checked =
      notes.filter (fun n => n.id ≠ note.id) ++
        [{ note with isEvidence := checked }] ∧
    (toggleNoteEvidence notes note checked).getLast? =
      some { note with isEvidence := checked } ∧
    (toggleNoteEvidence notes note checked).dropLast =
      notes.filter (fun n => n.id ≠ note.id) := by
  refine ⟨rfl, ?_, ?_, rfl, ?_, ?_⟩
  · rw [show editNoteContent notes note newContent =
        notes.filter (fun n => n.id ≠ note.id) ++
          [{ note with content := newContent }] from rfl]
    exact List.getLast?_concat _
  · rw [show editNoteContent notes note newContent =
        notes.filter (fun n => n.id ≠ note.id) ++
          [{ note with content := newContent }] from rfl]
    exact List.dropLast_concat
  · rw [show toggleNoteEvidence notes note checked =
        notes.filter (fun n => n.id ≠ note.id) ++
          [{ note with isEvidence := checked }] from rfl]
    exact List.getLast?_concat _
  · rw [show toggleNoteEvidence notes note checked =
        notes.filter (fun n => n.id ≠ note.id) ++
          [{ note with isEvidence := checked }] from rfl]
    exact List.dropLast_concat
